import Mathlib

/-!
Shallow embedding of `forcingprocessor.py` (ngen-datastream forcing processor)
and proofs about the claims of its specification.

Conventions of the embedding:
* Python floats are modelled as `ℚ`; the claims settled here are structural
  (which transform is applied, which branch is taken), not about rounding.
* Python ints are `ℤ` (worker shares, which the balancer may decrement) or `ℕ`
  (sizes, indices).
* Python strings are Lean `String`s, but the string primitives the source uses
  (`split`, substring membership) are implemented structurally over `List Char`
  so that concrete runs reduce inside the kernel.
* Python dicts (insertion ordered) are association lists `List (String × α)`;
  `dict_union` models the `|` operator, `dict_insert` models `d[k] = v`.
* Operations that can raise (`list[i]` out of range, failed `assert`) return
  `Option`.
-/

/-- Python `s.split(sep)` for a one-character separator, over the character
list.  `[[]]` for the empty string, like Python's `[""]`. -/
def split_char (sep : Char) : List Char → List (List Char)
  | [] => [[]]
  | c :: t =>
    let r := split_char sep t
    if c = sep then [] :: r
    else
      match r with
      | [] => [[c]]
      | h :: rt => (c :: h) :: rt

/-- Python `s.split(sep)` for a one-character separator. -/
def py_split (sep : Char) (s : String) : List String :=
  (split_char sep s.data).map (fun cs => String.mk cs)

/-- Contiguous-sublist test over character lists. -/
def has_sublist (pat : List Char) : List Char → Bool
  | [] => pat.isEmpty
  | c :: t => pat.isPrefixOf (c :: t) || has_sublist pat t

/-- Python `pat in s` / `s.find(pat) >= 0` for strings (substring test). -/
def str_contains (s pat : String) : Bool :=
  has_sublist pat.data s.data

/-- `nwm_variables` (module-level list, forcingprocessor.py lines 18-29).
`RAINRATE` appears twice by design. -/
def nwm_variables : List String :=
  ["U2D", "V2D", "LWDOWN", "RAINRATE", "RAINRATE", "T2D", "Q2D", "PSFC", "SWDOWN"]

/-- `ngen_variables` (module-level list, lines 31-42), the output column order. -/
def ngen_variables : List String :=
  ["UGRD_10maboveground", "VGRD_10maboveground", "DLWRF_surface", "APCP_surface",
   "precip_rate", "TMP_2maboveground", "SPFH_2maboveground", "PRES_surface",
   "DSWRF_surface"]

/-- The fill loop of `forcing_grid2catchment` (lines 211-217): entry `var_dx` of
`data_allvars` at a flattened grid cell.  `nwm` is the decoded NWM dataset, a map
from input variable name and flat cell index to the stored value; the code reads
`nwm_data[jvar]` and multiplies by 3600 whenever the input name `jvar` is the
string `RAINRATE` (which matches both occurrences, indices 3 and 4). -/
def data_allvars (nwm : String → ℕ → ℚ) (var_dx : ℕ) (cell : ℕ) : ℚ :=
  let jvar := nwm_variables.getD var_dx ""
  if jvar = "RAINRATE" then 3600 * nwm jvar cell else nwm jvar cell

/-- The per-catchment reduction of `forcing_grid2catchment` (lines 229-237) for
one variable row.  `grid` is one row of the flattened `(nvar, y*x)` tensor,
`cells` is `value[0]` (the flat cell indices, called `weights` in the source) and
`weights` is `value[1]` (the coverage fractions, called `coverage`):
`np.sum(coverage * grid[cells]) / np.sum(coverage)`. -/
def catchment_value (grid : List ℚ) (cells : List ℕ) (weights : List ℚ) : ℚ :=
  (((cells.map (fun c => grid.getD c 0)).zip weights).map (fun p => p.2 * p.1)).sum
    / weights.sum

/-- Modelled from the spec's words (§4.3): the projector output written as the
explicit index sum `(Σ_i weights[i] * grid[cells[i]]) / Σ_i weights[i]`, to be
compared against `catchment_value`, which is translated from the source. -/
def projector_spec (grid : List ℚ) (cells : List ℕ) (weights : List ℚ) : ℚ :=
  (∑ i in Finset.range cells.length,
      weights.getD i 0 * grid.getD (cells.getD i 0) 0) / weights.sum

/-- `cat_id = jcatch.split("-")[1]` (`write_data`, line 365).  Python raises
`IndexError` when there is no second segment, hence `Option`. -/
def cat_id (jcatch : String) : Option String :=
  (py_split '-' jcatch)[1]?

/-- The per-catchment output file name `f"cat-{cat_id}.{ext}"` built by
`write_data` (lines 375/383/398/405). -/
def emitted_name (jcatch ext : String) : Option String :=
  (cat_id jcatch).map (fun i => "cat-" ++ i ++ "." ++ ext)

/-- The naming rule as the spec words it (§4.7): the suffix after the last `-`
of the catchment identifier. -/
def suffix_after_last_dash (s : String) : Option String :=
  (py_split '-' s).getLast?

/-- The loose-file emission of `write_data` for one catchment (lines 370-412):
the names of the persistent per-catchment files written for one chunk, as a
function of `output_file_type`.  The branch structure is
`if "parquet" in oft or "csv" in oft: (if "parquet" in oft: ... elif "csv" ...)`,
identically for the s3 and the local sink; in the remaining (tar-only) case no
per-catchment file survives (the `j == 0` size probe removes its temporary). -/
def written_files (output_file_type : List String) (jcatch : String) : List String :=
  match cat_id jcatch with
  | none => []
  | some cid =>
    if output_file_type.contains "parquet" || output_file_type.contains "csv" then
      if output_file_type.contains "parquet" then ["cat-" ++ cid ++ ".parquet"]
      else ["cat-" ++ cid ++ ".csv"]
    else []

/-- `distribute_work` (lines 64-73): round-robin seed distribution.  The Python
function receives the item list but uses only its length, so the embedding takes
`nitems` directly; the final `assert len(items) == np.sum(items_per_proc)` is
proved below (`distribute_work_conservation`) rather than modelled.  For
`nprocs = 0` Python raises `ZeroDivisionError`; all uses have `nprocs ≥ 1`. -/
def distribute_work (nitems nprocs : ℕ) : List ℤ :=
  (List.range nitems).foldl
    (fun acc j => acc.set (j % nprocs) (acc.getD (j % nprocs) 0 + 1))
    (List.replicate nprocs (0 : ℤ))

/-- `completion_time` (line 89): `single_ex * x / exec_count + launch_delay*j`
for `j, x in enumerate(items_per_proc)`. -/
def completion_times (items : List ℤ) (launch_delay single_ex exec_count : ℚ) :
    List ℚ :=
  items.enum.map (fun jx => single_ex * (jx.2 : ℚ) / exec_count + launch_delay * (jx.1 : ℚ))

/-- The `while True` loop of `load_balance` (lines 90-101).  The loop `break`s
immediately whenever `len(np.nonzero(items_per_proc)[0]) > 0`, i.e. whenever any
share is nonzero; starting from an all-zero list a single move produces a
nonzero entry, so the loop runs at most two iterations whenever
`single_ex ≥ 0` (for `single_ex < 0` and an all-zero list with equal projected
times the Python loop would not terminate at all), and it is unrolled here with
fuel 2.  `completion_time.index(...)` is Python's first-occurrence index, and
Python's `max`/`min` of a nonempty list are taken with default `0` (Python would
raise on an empty list, which no caller produces). -/
def lb_loop : ℕ → List ℤ → ℚ → ℚ → ℚ → List ℤ
  | 0, items, _, _, _ => items
  | fuel + 1, items, launch_delay, single_ex, exec_count =>
    if 0 < (items.filter (fun x => x != 0)).length then items
    else
      let ct := completion_times items launch_delay single_ex exec_count
      let max_time := ct.max?.getD 0
      let max_loc := ct.findIdx (fun t => t == max_time)
      let min_time := ct.min?.getD 0
      let min_loc := ct.findIdx (fun t => t == min_time)
      if max_time - min_time > single_ex then
        let items1 := items.set max_loc (items.getD max_loc 0 - 1)
        let items2 := items1.set min_loc (items1.getD min_loc 0 + 1)
        lb_loop fuel items2 launch_delay single_ex exec_count
      else items

/-- `load_balance` (lines 75-115): run the rebalance loop, count the workers
with nonzero share (`ntasked = len(np.nonzero(items_per_proc)[0])`), when
`nprocs > ntasked` truncate to the first `ntasked` entries, and check the final
`assert nitems == np.sum(items_per_proc)` (`none` models `AssertionError`).
The recomputation of `completion_time` at line 103 feeds only a commented-out
print and is omitted. -/
def load_balance (items_per_proc : List ℤ)
    (launch_delay single_ex exec_count : ℚ) : Option (List ℤ) :=
  let nitems := items_per_proc.sum
  let nprocs := items_per_proc.length
  let items1 := lb_loop 2 items_per_proc launch_delay single_ex exec_count
  let ntasked := (items1.filter (fun x => x != 0)).length
  let items2 := if nprocs > ntasked then items1.take ntasked else items1
  if nitems = items2.sum then some items2 else none

/-- The per-catchment write of `write_data` in append mode (lines 376-410): with
`ii_append` the existing table is fetched and the new rows are concatenated
after it (`pd.concat([df_bucket, df])`, no deduplication); otherwise the new
rows replace the file.  Rows are abstract (`α`). -/
def write_step {α : Type} (existing new : List α) (ii_append : Bool) : List α :=
  if ii_append then existing ++ new else new

/-- The chunked time loop of `prep_ngen_data` (lines 668-695) acting on one
catchment's output file: `ii_append` starts `False` and is set to `True` after
every chunk's write. -/
def chunk_loop {α : Type} (ii_append : Bool) (existing : List α) :
    List (List α) → List α
  | [] => existing
  | c :: cs => chunk_loop true (write_step existing c ii_append) cs

/-- One driver run (`prep_ngen_data`): the append flag is initially `False`. -/
def run_pipeline {α : Type} (existing : List α) (chunks : List (List α)) : List α :=
  chunk_loop false existing chunks

/-- The object-store classification of `prep_ngen_data` (lines 645-657),
applied to a single URI. -/
inductive FsType where
  | s3
  | google
  | noFs
deriving DecidableEq

def classify_store (uri : String) : FsType :=
  if str_contains uri "s3://" || str_contains uri "s3.amazonaws" then FsType.s3
  else if str_contains uri "google" || str_contains uri "gs://" || str_contains uri "gcs://" then
    FsType.google
  else FsType.noFs

/-- The run-wide store type: `prep_ngen_data` computes it once from
`nwm_forcing_files[0]` (line 646); `none` models the `IndexError` on an empty
file list. -/
def run_fs_type (files : List String) : Option FsType :=
  files.head?.map classify_store

/-- `convert_url2key` (lines 49-62).  `_nc_file_parts[2]` is modelled with
default `""` (Python raises `IndexError` for URIs with fewer than three
`/`-separated parts; every caller passes a URL with a scheme). -/
def convert_url2key (nwm_file : String) (fs_type : FsType) : String × String :=
  let parts := py_split '/' nwm_file
  let layers := parts.drop 3
  let key0 := layers.foldl (fun acc jlay => acc ++ "/" ++ jlay) ""
  let key1 :=
    if fs_type = FsType.s3 then (parts.getD 2 "").dropRight 17 ++ key0
    else if fs_type = FsType.google then "gs:/" ++ key0
    else key0
  let key2 := if str_contains nwm_file "s3://" then key1.drop 1 else key1
  (parts.getD 2 "", key2)

/-- How `forcing_grid2catchment` opens one file (lines 190-204): when a file
system was handed down (`fs`, present exactly when the run store type is s3 or
google) every file goes through `fs.open`; only with no `fs` does the per-file
`https://` test select between an HTTPS GET and a local open. -/
inductive OpenRoute where
  | viaFs (key : String)
  | viaHttpsGet
  | viaLocal
deriving DecidableEq

def open_route (fs_type : FsType) (nwm_file : String) : OpenRoute :=
  if fs_type ≠ FsType.noFs then
    if str_contains nwm_file "https://" then
      OpenRoute.viaFs (convert_url2key nwm_file fs_type).2
    else OpenRoute.viaFs nwm_file
  else if str_contains nwm_file "https://" then OpenRoute.viaHttpsGet
  else OpenRoute.viaLocal

/-- Python dict union `d1 | d2` on insertion-ordered association lists with
unique keys: keys of `d1` in order (values overridden by `d2` on collision),
then the new keys of `d2` in order. -/
def dict_union {α : Type} (d1 d2 : List (String × α)) : List (String × α) :=
  d1.map (fun p =>
      match d2.lookup p.1 with
      | some v => (p.1, v)
      | none => p)
    ++ d2.filter (fun p => (d1.lookup p.1).isNone)

/-- Python dict assignment `d[k] = v`: replace in place when the key exists,
append otherwise. -/
def dict_insert {α : Type} (d : List (String × α)) (k : String) (v : α) :
    List (String × α) :=
  if (d.lookup k).isSome then d.map (fun p => if p.1 == k then (k, v) else p)
  else d ++ [(k, v)]

/-- The greedy capture of `[^/]+`: the maximal run of non-`/` characters. -/
def vpu_capture (cs : List Char) : List Char :=
  cs.takeWhile (fun c => c != '/')

/-- `re.search(r'VPU_([^/]+)', path)` (lines 613-615): the leftmost position
where `VPU_` is followed by at least one non-`/` character; the captured group
is the maximal such run. -/
def vpu_scan : List Char → Option (List Char)
  | [] => none
  | c :: cs =>
    if c = 'V' ∧ cs.take 3 = ['P', 'U', '_'] then
      let cap := vpu_capture (cs.drop 3)
      if cap.isEmpty then vpu_scan cs else some cap
    else vpu_scan cs

def vpu_match (path : String) : Option String :=
  (vpu_scan path.data).map (fun cs => String.mk cs)

/-- One crosswalk document: its path and its parsed JSON mapping (insertion
ordered, values abstract since the loader never inspects them). -/
structure WeightDoc (α : Type) where
  path : String
  entries : List (String × α)

/-- The crosswalk loading loop of `prep_ngen_data` (lines 608-635).  State is
`(crosswalk_dict, jcatchment_dict, count)`.  For each document: infer the group
label from the `VPU_([^/]+)` pattern or a 1-based ordinal; union the document
into `crosswalk_dict`; record the group's catchments — `list(new_dict.keys())`
(this document's keys) in the bucket branch (line 631), but
`list(crosswalk_dict.keys())` (the keys of the whole union so far) in the local
branch (line 635). -/
def load_crosswalk {α : Type} (docs : List (WeightDoc α)) :
    List (String × α) × List (String × List String) :=
  let res := docs.foldl
    (fun (st : List (String × α) × List (String × List String) × ℕ) doc =>
      let cw := st.1
      let jc := st.2.1
      let count := st.2.2
      let labeled := vpu_match doc.path
      let count1 := if labeled.isSome then count else count + 1
      let jname :=
        match labeled with
        | some g => "VPU_" ++ g
        | none => toString count1
      let cw1 := dict_union cw doc.entries
      let jc1 :=
        if str_contains doc.path "//" then
          dict_insert jc jname (doc.entries.map Prod.fst)
        else dict_insert jc jname (cw1.map Prod.fst)
      (cw1, jc1, count1))
    ([], [], 0)
  (res.1, res.2.1)

/-- The slicing loop of `multiprocess_write_tars` (lines 496-505) reduced to its
`assert jfilename == catchments[jchunk][j] + ".csv"` checks: `filenames` is the
flat list of emitted file names (in crosswalk order), sliced group by group;
`false` means some assertion fails (`AssertionError` at line 504). -/
def tar_slices_ok (filenames : List String) (groups : List (String × List String)) :
    Bool :=
  (groups.foldl
    (fun (st : ℕ × Bool) g =>
      let i := st.1
      let k := i + g.2.length
      let slice := (filenames.drop i).take (k - i)
      (k, st.2 && slice.enum.all (fun jf => jf.2 == g.2.getD jf.1 "" ++ ".csv")))
    (0, true)).2

/-! ## Helper lemmas -/

lemma chunk_loop_true {α : Type} (s : List α) (cs : List (List α)) :
    chunk_loop true s cs = s ++ cs.flatten := by
  induction cs generalizing s with
  | nil => simp [chunk_loop]
  | cons c cs ih => simp [chunk_loop, write_step, ih]

lemma getD_set_int (l : List ℤ) (i k : ℕ) (v : ℤ) (hi : i < l.length) :
    (l.set i v).getD k 0 = if i = k then v else l.getD k 0 := by
  by_cases h : i = k
  · subst h
    rw [List.getD_eq_getElem?_getD, List.getElem?_set_self hi]
    simp
  · rw [List.getD_eq_getElem?_getD, List.getElem?_set_ne h, ← List.getD_eq_getElem?_getD,
      if_neg h]

lemma sum_set_int (l : List ℤ) (i : ℕ) (v : ℤ) (hi : i < l.length) :
    (l.set i v).sum = l.sum - l.getD i 0 + v := by
  induction l generalizing i with
  | nil => simp at hi
  | cons a t ih =>
    cases i with
    | zero => simp; ring
    | succ j =>
      have hj : j < t.length := by simpa using hi
      simp [ih j hj]
      ring

lemma distribute_work_succ (N P : ℕ) :
    distribute_work (N + 1) P
      = (distribute_work N P).set (N % P) ((distribute_work N P).getD (N % P) 0 + 1) := by
  unfold distribute_work
  rw [List.range_succ, List.foldl_append]
  rfl

lemma distribute_work_length (N P : ℕ) : (distribute_work N P).length = P := by
  induction N with
  | zero => simp [distribute_work]
  | succ n ih => rw [distribute_work_succ]; simp [ih]

lemma distribute_work_getD (P : ℕ) (hP : 0 < P) :
    ∀ N k, k < P →
      (distribute_work N P).getD k 0 = ((N / P : ℕ) : ℤ) + if k < N % P then 1 else 0 := by
  intro N
  induction N with
  | zero =>
    intro k hk
    simp [distribute_work, List.getD_eq_getElem?_getD, List.getElem?_replicate, hk]
  | succ n ih =>
    intro k hk
    have hr : n % P < P := Nat.mod_lt _ hP
    have hdm := Nat.div_add_mod n P
    rw [distribute_work_succ,
      getD_set_int _ _ _ _ (by rw [distribute_work_length]; exact hr),
      ih k hk]
    by_cases hc : n % P + 1 = P
    · have hn1 : n + 1 = P * (n / P + 1) := by
        have hd : P * (n / P + 1) = P * (n / P) + P := by ring
        omega
      have hdiv : (n + 1) / P = n / P + 1 := by
        rw [hn1, Nat.mul_div_cancel_left _ hP]
      have hmod : (n + 1) % P = 0 := by rw [hn1]; exact Nat.mul_mod_right _ _
      rw [hdiv, hmod]
      by_cases hkr : n % P = k
      · rw [if_pos hkr, ih (n % P) hr]
        clear hn1 hdm
        split_ifs <;> push_cast <;> omega
      · have hkr' : k < n % P := by omega
        rw [if_neg hkr]
        clear hn1 hdm
        split_ifs <;> push_cast <;> omega
    · have hn1 : n + 1 = n % P + 1 + P * (n / P) := by omega
      have hdiv : (n + 1) / P = n / P := by
        rw [hn1, Nat.add_mul_div_left _ _ hP, Nat.div_eq_of_lt (by omega)]
        omega
      have hmod : (n + 1) % P = n % P + 1 := by
        rw [hn1, Nat.add_mul_mod_self_left, Nat.mod_eq_of_lt (by omega)]
      rw [hdiv, hmod]
      by_cases hkr : n % P = k
      · rw [if_pos hkr, ih (n % P) hr]
        clear hn1 hdm
        split_ifs <;> push_cast <;> omega
      · rw [if_neg hkr]
        clear hn1 hdm
        split_ifs <;> push_cast <;> omega

lemma distribute_work_sum (N P : ℕ) (hP : 0 < P) :
    (distribute_work N P).sum = (N : ℤ) := by
  induction N with
  | zero => simp [distribute_work]
  | succ n ih =>
    rw [distribute_work_succ,
      sum_set_int _ _ _ (by rw [distribute_work_length]; exact Nat.mod_lt _ hP), ih]
    push_cast
    ring

lemma distribute_work_mem_val (N P : ℕ) (hP : 0 < P) :
    ∀ a ∈ distribute_work N P,
      a = ((N / P : ℕ) : ℤ) ∨ a = ((N / P : ℕ) : ℤ) + 1 := by
  intro a ha
  obtain ⟨i, hi, hia⟩ := List.mem_iff_getElem.mp ha
  have hiP : i < P := by rwa [distribute_work_length] at hi
  have hf := distribute_work_getD P hP N i hiP
  rw [List.getD_eq_getElem?_getD, List.getElem?_eq_getElem hi] at hf
  simp only [Option.getD_some] at hf
  rw [hia] at hf
  split_ifs at hf with h
  · right; omega
  · left; omega

lemma distribute_work_pos (N P : ℕ) (hP : 0 < P) (hPN : P ≤ N) :
    ∀ a ∈ distribute_work N P, 0 < a := by
  intro a ha
  have hq : 1 ≤ N / P := (Nat.one_le_div_iff hP).mpr hPN
  rcases distribute_work_mem_val N P hP a ha with h | h <;> omega

lemma distribute_work_eq_replicate (P : ℕ) :
    ∀ N, N ≤ P →
      distribute_work N P = List.replicate N (1 : ℤ) ++ List.replicate (P - N) 0 := by
  intro N
  induction N with
  | zero => intro _; simp [distribute_work]
  | succ n ih =>
    intro h
    have hnP : n < P := by omega
    rw [distribute_work_succ, ih (by omega), Nat.mod_eq_of_lt hnP]
    have hget : (List.replicate n (1 : ℤ) ++ List.replicate (P - n) 0).getD n 0 = 0 := by
      rw [List.getD_eq_getElem?_getD,
        List.getElem?_append_right (by simp), List.length_replicate, Nat.sub_self]
      simp [List.getElem?_replicate, Nat.sub_pos_of_lt hnP]
    rw [hget]
    rw [List.set_append_right _ _ (by simp), List.length_replicate, Nat.sub_self]
    have hrep : List.replicate (P - n) (0 : ℤ) = 0 :: List.replicate (P - n - 1) 0 := by
      rw [← List.replicate_succ]
      congr 1
      omega
    rw [hrep]
    simp only [List.set_cons_zero, zero_add]
    rw [List.replicate_succ' n (1 : ℤ), List.append_assoc]
    simp only [List.singleton_append]
    rw [Nat.sub_sub]

lemma lb_loop_break (fuel : ℕ) (items : List ℤ) (ld se ec : ℚ)
    (h : 0 < (items.filter (fun x => x != 0)).length) :
    lb_loop (fuel + 1) items ld se ec = items := by
  simp [lb_loop, h]

lemma zip_mul_sum (xs ws : List ℚ) (h : xs.length = ws.length) :
    ((xs.zip ws).map (fun p => p.2 * p.1)).sum
      = ∑ i in Finset.range xs.length, ws.getD i 0 * xs.getD i 0 := by
  induction xs generalizing ws with
  | nil => simp
  | cons x xt ih =>
    cases ws with
    | nil => simp at h
    | cons w wt =>
      simp only [List.zip_cons_cons, List.map_cons, List.sum_cons, List.length_cons]
      rw [Finset.sum_range_succ']
      simp only [List.getD_cons_succ, List.getD_cons_zero]
      rw [ih wt (by simpa using h)]
      ring

lemma zip_ones_sum (xs : List ℚ) :
    ∀ n, xs.length = n →
      ((xs.zip (List.replicate n (1 : ℚ))).map (fun p => p.2 * p.1)).sum = xs.sum := by
  induction xs with
  | nil => intro n _; simp
  | cons x xt ih =>
    intro n h
    cases n with
    | zero => simp at h
    | succ m => simp [List.replicate_succ, ih m (by simpa using h)]

/-! ## Claims -/

/-- C1, counterexample: the claim "`APCP_surface` equals the `RAINRATE` input
field unchanged, and `precip_rate == 3600 · APCP_surface`" is false.  On a
dataset whose every field is constant `1`, output index 3 (`APCP_surface`)
holds `3600`, not `1`, and output index 4 (`precip_rate`) is not `3600` times
output index 3. -/
theorem rainrate_identity_refuted :
    ngen_variables.getD 3 "" = "APCP_surface"
    ∧ ngen_variables.getD 4 "" = "precip_rate"
    ∧ data_allvars (fun _ _ => 1) 3 0 = 3600
    ∧ ¬ data_allvars (fun _ _ => 1) 4 0 = 3600 * data_allvars (fun _ _ => 1) 3 0 := by
  refine ⟨rfl, rfl, ?_, ?_⟩ <;> norm_num [data_allvars, nwm_variables]

/-- C1, amended: because the decode loop scales every variable whose *input*
name is `RAINRATE`, both output column 3 (`APCP_surface`) and output column 4
(`precip_rate`) equal `3600 · RAINRATE`; hence for every time step, cell and
catchment, `precip_rate` equals `APCP_surface` exactly (ratio 1, not 3600). -/
theorem rainrate_both_scaled (nwm : String → ℕ → ℚ) (cell n : ℕ)
    (cells : List ℕ) (weights : List ℚ) :
    data_allvars nwm 3 cell = 3600 * nwm "RAINRATE" cell
    ∧ data_allvars nwm 4 cell = data_allvars nwm 3 cell
    ∧ catchment_value ((List.range n).map (data_allvars nwm 4)) cells weights
      = catchment_value ((List.range n).map (data_allvars nwm 3)) cells weights := by
  have h : data_allvars nwm 4 = data_allvars nwm 3 := funext fun c => rfl
  exact ⟨rfl, by rw [h], by rw [h]⟩

/-- C2, counterexample: with `output_file_type = ["csv", "parquet"]` only the
parquet table is written for a catchment; no `cat-<id>.csv` is produced, so the
claim "each named format is produced" fails. -/
theorem both_formats_refuted :
    written_files ["csv", "parquet"] "cat-12" = ["cat-12.parquet"]
    ∧ ¬ "cat-12.csv" ∈ written_files ["csv", "parquet"] "cat-12" := by decide

/-- C2, amended: the emitter writes exactly one loose table per catchment per
chunk: the parquet one whenever `parquet` is named (regardless of what else is
named), otherwise the csv one when `csv` is named; never more than one. -/
theorem format_precedence (oft : List String) (jcatch cid : String)
    (hcid : cat_id jcatch = some cid) :
    (oft.contains "parquet" = true →
      written_files oft jcatch = ["cat-" ++ cid ++ ".parquet"])
    ∧ (oft.contains "parquet" = false → oft.contains "csv" = true →
      written_files oft jcatch = ["cat-" ++ cid ++ ".csv"])
    ∧ (written_files oft jcatch).length ≤ 1 := by
  unfold written_files
  rw [hcid]
  refine ⟨fun hp => ?_, fun hp hc => ?_, ?_⟩
  · have hp' : "parquet" ∈ oft := by simpa using hp
    simp [hp']
  · have hp' : "parquet" ∉ oft := by simpa using hp
    have hc' : "csv" ∈ oft := by simpa using hc
    simp [hp', hc']
  · by_cases hp' : "parquet" ∈ oft <;> by_cases hc' : "csv" ∈ oft <;> simp [hp', hc']

theorem format_precedence_witness :
    cat_id "cat-12" = some "12"
    ∧ List.contains ["csv", "parquet"] "parquet" = true
    ∧ written_files ["csv", "parquet"] "cat-12" = ["cat-" ++ "12" ++ ".parquet"] :=
  ⟨by decide, by decide,
    (format_precedence ["csv", "parquet"] "cat-12" "12" (by decide)).1 (by decide)⟩

/-- C3: evaluating the loader at two local crosswalk documents with disjoint
keys (`weights1.json` contributing `cat-1`, `weights2.json` contributing
`cat-2`).  The recorded grouping maps label `"2"` to `["cat-1", "cat-2"]` — the
keys of the union accumulated so far (line 635) — instead of `["cat-2"]`, so the
groups do not partition the catchment set; consequently the tar stage's own
assertion (line 504) fails on the emitted file names. -/
theorem grouping_union_leak_eval :
    load_crosswalk
        [⟨"weights1.json", [("cat-1", ())]⟩, ⟨"weights2.json", [("cat-2", ())]⟩]
      = ([("cat-1", ()), ("cat-2", ())], [("1", ["cat-1"]), ("2", ["cat-1", "cat-2"])])
    ∧ ((load_crosswalk
          [⟨"weights1.json", [("cat-1", ())]⟩, ⟨"weights2.json", [("cat-2", ())]⟩]).1.map
        Prod.fst).map (fun c => (emitted_name c "csv").getD "")
      = ["cat-1.csv", "cat-2.csv"]
    ∧ tar_slices_ok ["cat-1.csv", "cat-2.csv"]
        [("1", ["cat-1"]), ("2", ["cat-1", "cat-2"])] = false := by decide

/-- C4: evaluating `load_balance` at shares `[10, 0]` with the extraction
parameters (`launch_delay = 0.05`, `single_ex = 35`, `exec_count = 1`).  The
projected completion times are `[350, 0.05]`, whose spread exceeds
`single_ex = 35`, and not every worker has nonzero load — yet the function
performs no move at all: the loop breaks immediately because *some* share is
nonzero (`len(np.nonzero(...)) > 0`, line 91), and the result is the original
vector truncated to `[10]`. -/
theorem load_balance_no_moves_eval :
    completion_times [10, 0] 0.05 35 1 = [350, 0.05]
    ∧ (350 : ℚ) - 0.05 > 35
    ∧ ¬ (([10, 0] : List ℤ).filter (fun x => x != 0)).length = 2
    ∧ load_balance [10, 0] 0.05 35 1 = some [10] := by
  refine ⟨?_, by norm_num, by decide, by decide⟩
  norm_num [completion_times, List.enum, List.enumFrom]

/-- C5, counterexample: the emitted name uses `jcatch.split("-")[1]`, the
segment after the *first* dash; for identifier `cat-nex-12` the file is
`cat-nex.csv`, not `cat-12.csv` as the claim's last-dash rule demands. -/
theorem naming_last_dash_refuted :
    emitted_name "cat-nex-12" "csv" = some "cat-nex.csv"
    ∧ suffix_after_last_dash "cat-nex-12" = some "12"
    ∧ emitted_name "cat-nex-12" "csv" ≠ some "cat-12.csv" := by decide

/-- C5, amended: the file is `cat-<s>.<ext>` where `<s>` is the second
`-`-separated segment of the identifier; for identifiers with exactly one dash
(the domain form `cat-<id>`) this coincides with the suffix after the last
dash. -/
theorem naming_first_dash_segment (jcatch t ext : String)
    (h : py_split '-' jcatch = ["cat", t]) :
    emitted_name jcatch ext = some ("cat-" ++ t ++ "." ++ ext)
    ∧ suffix_after_last_dash jcatch = some t := by
  unfold emitted_name cat_id suffix_after_last_dash
  rw [h]
  exact ⟨rfl, rfl⟩

theorem naming_first_dash_segment_witness :
    py_split '-' "cat-12" = ["cat", "12"]
    ∧ (emitted_name "cat-12" "csv" = some ("cat-" ++ "12" ++ "." ++ "csv")
      ∧ suffix_after_last_dash "cat-12" = some "12") :=
  ⟨by decide, naming_first_dash_segment "cat-12" "12" "csv" (by decide)⟩

/-- C7: in append mode the emitter writes the existing rows followed by the new
rows, with no deduplication; within a run the append flag is false on the first
chunk and true thereafter, so one run writes exactly the concatenation of its
chunks; and a second run over further chunks executed with append enabled, on
top of the first run's output, yields `rows(run1) ++ rows(run2)` per
catchment. -/
theorem append_accumulation {α : Type} (existing : List α)
    (run1 run2 : List (List α)) (h : run1 ≠ []) :
    (∀ new : List α, write_step existing new true = existing ++ new)
    ∧ run_pipeline existing run1 = run1.flatten
    ∧ chunk_loop true (run_pipeline existing run1) run2 = run1.flatten ++ run2.flatten := by
  obtain ⟨c, cs, rfl⟩ := List.exists_cons_of_ne_nil h
  have h1 : run_pipeline existing (c :: cs) = (c :: cs).flatten := by
    show chunk_loop true (write_step existing c false) cs = (c :: cs).flatten
    simp [write_step, chunk_loop_true]
  exact ⟨fun _ => rfl, h1, by rw [h1, chunk_loop_true]⟩

theorem append_accumulation_witness :
    ([[1], [2]] : List (List ℕ)) ≠ []
    ∧ ((∀ new : List ℕ, write_step [0] new true = [0] ++ new)
      ∧ run_pipeline [0] [[1], [2]] = [[1], [2]].flatten
      ∧ chunk_loop true (run_pipeline [0] [[1], [2]]) [[3]]
          = [[1], [2]].flatten ++ [[3]].flatten) :=
  ⟨by decide, append_accumulation [0] [[1], [2]] [[3]] (by decide)⟩

/-- C10: the object-store classification is computed once, from the first URI of
the input list only (it does not depend on the rest of the list), and whenever
it yields s3 or google every file of the run — whatever its own scheme — is
opened through that one file system adapter. -/
theorem store_classified_once (f0 f : String) (rest rest' : List String)
    (_hf : f ∈ f0 :: rest) :
    run_fs_type (f0 :: rest) = some (classify_store f0)
    ∧ run_fs_type (f0 :: rest) = run_fs_type (f0 :: rest')
    ∧ (classify_store f0 ≠ FsType.noFs →
        ∃ key, open_route (classify_store f0) f = OpenRoute.viaFs key) := by
  refine ⟨rfl, rfl, fun hns => ?_⟩
  unfold open_route
  rw [if_pos hns]
  by_cases hh : str_contains f "https://" = true
  · exact ⟨_, by rw [if_pos hh]⟩
  · exact ⟨f, by rw [if_neg hh]⟩

theorem store_classified_once_witness :
    "gs://other/b.nc" ∈ ["s3://bucket/a.nc", "gs://other/b.nc"]
    ∧ classify_store "gs://other/b.nc" = FsType.google
    ∧ (run_fs_type ["s3://bucket/a.nc", "gs://other/b.nc"]
        = some (classify_store "s3://bucket/a.nc")
      ∧ run_fs_type ["s3://bucket/a.nc", "gs://other/b.nc"]
        = run_fs_type ["s3://bucket/a.nc"]
      ∧ (classify_store "s3://bucket/a.nc" ≠ FsType.noFs →
          ∃ key, open_route (classify_store "s3://bucket/a.nc") "gs://other/b.nc"
            = OpenRoute.viaFs key)) :=
  ⟨by decide, by decide,
    store_classified_once "s3://bucket/a.nc" "gs://other/b.nc" ["gs://other/b.nc"] []
      (by decide)⟩

/-- C6: the projector output for a catchment equals
`(Σ_i weights[i] · grid[cells[i]]) / Σ_i weights[i]`, and with uniform unit
weights it is the unweighted mean of the grid values over the covered cells. -/
theorem projector_linearity (grid : List ℚ) (cells : List ℕ) (weights : List ℚ)
    (hlen : cells.length = weights.length) (_hw : 0 < weights.sum)
    (_hcells : ∀ c ∈ cells, c < grid.length) :
    catchment_value grid cells weights = projector_spec grid cells weights
    ∧ (weights = List.replicate cells.length 1 →
        catchment_value grid cells weights
          = (cells.map (fun c => grid.getD c 0)).sum / (cells.length : ℚ)) := by
  constructor
  · unfold catchment_value projector_spec
    congr 1
    rw [zip_mul_sum _ _ (by simpa using hlen), List.length_map]
    refine Finset.sum_congr rfl ?_
    intro i hi
    have hi' : i < cells.length := Finset.mem_range.mp hi
    congr 1
    rw [List.getD_eq_getElem?_getD, List.getElem?_map, List.getElem?_eq_getElem hi']
    simp [List.getD_eq_getElem?_getD, List.getElem?_eq_getElem hi']
  · intro hrep
    unfold catchment_value
    rw [hrep]
    have hden : (List.replicate cells.length (1 : ℚ)).sum = (cells.length : ℚ) := by
      simp [List.sum_replicate]
    have hnum := zip_ones_sum (cells.map fun c => grid.getD c 0) cells.length (by simp)
    rw [hnum, hden]

theorem projector_linearity_witness :
    ([0, 1] : List ℕ).length = ([1, 1] : List ℚ).length
    ∧ (0 : ℚ) < ([1, 1] : List ℚ).sum
    ∧ (∀ c ∈ ([0, 1] : List ℕ), c < ([2, 4] : List ℚ).length)
    ∧ (catchment_value [2, 4] [0, 1] [1, 1] = projector_spec [2, 4] [0, 1] [1, 1]
      ∧ (([1, 1] : List ℚ) = List.replicate ([0, 1] : List ℕ).length 1 →
          catchment_value [2, 4] [0, 1] [1, 1]
            = (([0, 1] : List ℕ).map (fun c => ([2, 4] : List ℚ).getD c 0)).sum
              / ((([0, 1] : List ℕ).length : ℕ) : ℚ))) :=
  ⟨rfl, by norm_num, by decide,
    projector_linearity [2, 4] [0, 1] [1, 1] rfl (by norm_num) (by decide)⟩

/-- C8: the round-robin seed distribution returns a length-`P` vector of
non-negative shares summing to `N` whose spread is at most 1. -/
theorem distribute_work_conservation (N P : ℕ) (hP : 1 ≤ P) :
    (distribute_work N P).length = P
    ∧ (distribute_work N P).sum = (N : ℤ)
    ∧ ∀ a ∈ distribute_work N P, 0 ≤ a ∧ ∀ b ∈ distribute_work N P, a ≤ b + 1 := by
  refine ⟨distribute_work_length N P, distribute_work_sum N P hP, ?_⟩
  intro a ha
  have hq0 : (0 : ℤ) ≤ ((N / P : ℕ) : ℤ) := by exact_mod_cast Nat.zero_le (N / P)
  rcases distribute_work_mem_val N P hP a ha with h | h <;>
    exact ⟨by omega, fun b hb => by
      rcases distribute_work_mem_val N P hP b hb with h2 | h2 <;> omega⟩

theorem distribute_work_conservation_witness :
    1 ≤ 3
    ∧ ((distribute_work 5 3).length = 3
      ∧ (distribute_work 5 3).sum = ((5 : ℕ) : ℤ)
      ∧ ∀ a ∈ distribute_work 5 3, 0 ≤ a ∧ ∀ b ∈ distribute_work 5 3, a ≤ b + 1) :=
  ⟨by decide, distribute_work_conservation 5 3 (by decide)⟩

/-- C9: on a round-robin seed for `N ≥ 1` items and `P ≥ 1` workers the loop
performs no move, so "after rebalancing" the shares are the seed shares; when
some share is zero (`N < P`) the vector is truncated to the count of nonzero
entries while the total is preserved, and in particular for `P > N` the result
is exactly `N` workers with one item each.  (For `N ≥ P` nothing is truncated
and the length is `P`; `min N P` covers both cases.) -/
theorem load_balance_downsize (N P : ℕ) (ld se ec : ℚ) (hN : 1 ≤ N) (hP : 1 ≤ P) :
    ∃ w, load_balance (distribute_work N P) ld se ec = some w
      ∧ w.length = min N P
      ∧ w.sum = (N : ℤ)
      ∧ (N < P → w = List.replicate N (1 : ℤ)) := by
  have hP0 : 0 < P := hP
  have hlen : (distribute_work N P).length = P := distribute_work_length N P
  have hsum : (distribute_work N P).sum = (N : ℤ) := distribute_work_sum N P hP0
  rcases le_or_lt P N with hPN | hNP
  · -- P ≤ N: every share is positive, nothing is truncated
    have hpos := distribute_work_pos N P hP0 hPN
    have hfil : (distribute_work N P).filter (fun x => x != 0) = distribute_work N P :=
      List.filter_eq_self.mpr (fun a ha => by
        have := hpos a ha
        simp only [bne_iff_ne, ne_eq, decide_eq_true_eq]
        omega)
    have hbreak : lb_loop 2 (distribute_work N P) ld se ec = distribute_work N P :=
      lb_loop_break 1 _ _ _ _ (by rw [hfil, hlen]; omega)
    refine ⟨distribute_work N P, ?_, by rw [hlen, Nat.min_eq_right hPN], hsum,
      fun h => absurd h (by omega)⟩
    simp only [load_balance]
    rw [hbreak, hfil, hlen]
    simp
  · -- N < P: the tail of `P - N` zero shares is cut off
    have hstruct := distribute_work_eq_replicate P N (le_of_lt hNP)
    have hfil : (distribute_work N P).filter (fun x => x != 0)
        = List.replicate N (1 : ℤ) := by
      rw [hstruct, List.filter_append, List.filter_replicate_of_pos (by decide),
        List.filter_replicate_of_neg (by decide), List.append_nil]
    have hbreak : lb_loop 2 (distribute_work N P) ld se ec = distribute_work N P :=
      lb_loop_break 1 _ _ _ _ (by rw [hfil]; simpa using hN)
    have hone : (List.replicate N (1 : ℤ)).sum = (N : ℤ) := by simp [List.sum_replicate]
    refine ⟨List.replicate N (1 : ℤ), ?_, by simp [Nat.min_eq_left (le_of_lt hNP)],
      hone, fun _ => rfl⟩
    simp only [load_balance]
    rw [hbreak, hfil, hlen]
    have hcut : P > (List.replicate N (1 : ℤ)).length := by simpa using hNP
    rw [if_pos hcut]
    have htake : (distribute_work N P).take (List.replicate N (1 : ℤ)).length
        = List.replicate N (1 : ℤ) := by
      rw [hstruct]
      exact List.take_left' rfl
    rw [htake, hsum, hone, if_pos rfl]

theorem load_balance_downsize_witness :
    1 ≤ 3 ∧ 1 ≤ 8
    ∧ (∃ w, load_balance (distribute_work 3 8) 0.05 35 1 = some w
        ∧ w.length = min 3 8
        ∧ w.sum = ((3 : ℕ) : ℤ)
        ∧ (3 < 8 → w = List.replicate 3 (1 : ℤ))) :=
  ⟨by decide, by decide, load_balance_downsize 3 8 0.05 35 1 (by decide) (by decide)⟩
